import Mathlib

/-! Fitaman back end: resolvers of `Mutation.js` and `Query.js`

A shallow embedding of the GraphQL resolvers of the Fitaman back end
(`src/backend/src/resolvers/Mutation.js`, `src/backend/src/resolvers/Query.js`).

* JavaScript objects (`args`, the `data` records sent to the store) are finite maps from
  field names to values.
* `async` resolvers become pure functions `World → Except Err α × World`: the `World` holds
  what a resolver can observe or change (stored users, stored items, cookies set on the
  response, mails handed to the transport, the sequence of store calls).  A `throw` (or a
  rejected `await`) is the `Except.error` result, paired with the world at that moment.
* The libraries the resolvers call (`bcryptjs`, `jsonwebtoken`, `crypto.randomBytes`, the mail
  transport, `String.prototype.toLowerCase`, `Date.now`) are parameters gathered in `Env`, or
  an explicit `now` argument.
-/

namespace Fitaman

/-! ## JavaScript values and objects -/

/-- Values occurring as fields of the objects the resolvers handle. -/
inductive Val where
  | null
  | str (s : String)
  | num (n : Int)
  /-- The object `{ set: [...] }`. -/
  | permSet (ps : List String)
  /-- The object `{ connect: { id } }`. -/
  | connect (id : String)
  deriving DecidableEq, Repr

/-- A JavaScript object: a field name is mapped to its value, `none` being `undefined`. -/
abbrev Obj := String → Option Val

/-- The object literal with no field. -/
def Obj.empty : Obj := fun _ => none

/-- Assignment `o.k = v`, or a field `k: v` written in an object literal after the fields of `o`. -/
def Obj.set (o : Obj) (k : String) (v : Val) : Obj :=
  fun k' => if k' = k then some v else o k'

/-- Spread `{ ...o, ...src }`: the fields of `src` are copied over those of `o`. -/
def Obj.spread (o : Obj) (src : Obj) : Obj :=
  fun k => match src k with
    | some v => some v
    | none => o k

/-- Truthiness of `ctx.request.userId`: `undefined` and the empty string are falsy. -/
def truthy : Option String → Bool
  | none => false
  | some s => s != ""

/-! ## Data model -/

/-- A stored user (the record type of the data store). -/
structure User where
  id : String
  name : Option String
  email : String
  password : String
  permissions : List String
  resetToken : Option String
  resetTokenExpiry : Option Int
  deriving DecidableEq, Repr

/-- The errors thrown by the resolvers and by their collaborators. -/
inductive Err where
  /-- `You must be logged in to do that` / `You must be logged in!` -/
  | NotAuthenticated
  /-- Thrown by `hasPermission`. -/
  | Forbidden
  /-- `No such user found for email ${email}` -/
  | UserNotFound (email : String)
  /-- `Invalid Password` -/
  | InvalidPassword
  /-- `Your Passwords don't match!` -/
  | PasswordMismatch
  /-- `This token is either invalid or expired` -/
  | InvalidOrExpiredToken
  /-- A `TypeError` of the JavaScript runtime, or `bcrypt.hash` rejecting its argument. -/
  | TypeError
  /-- The data store rejected a call (unique constraint, missing record, invalid data). -/
  | StoreError
  /-- The mail transport rejected `sendMail`. -/
  | MailError
  deriving DecidableEq, Repr

deriving instance DecidableEq for Except

/-- A cookie set with `ctx.response.cookie(name, value, { httpOnly, maxAge })`. -/
structure Cookie where
  name : String
  value : String
  httpOnly : Bool
  maxAge : Nat
  deriving DecidableEq, Repr

/-- The argument of `transport.sendMail`. -/
structure Mail where
  /-- The field `from`. -/
  sender : String
  /-- The field `to`. -/
  recipient : String
  subject : String
  html : String
  deriving DecidableEq, Repr

/-- The calls a resolver makes on the data store `ctx.db`. -/
inductive DbOp where
  /-- The call `ctx.db.query.user({ where: { email } })`. -/
  | queryUser (email : String)
  /-- The call `ctx.db.query.users({ where: { resetToken, resetTokenExpiry_gte } })`. -/
  | queryUsersWhere (resetToken : String) (resetTokenExpiry_gte : Int)
  /-- The call `ctx.db.query.users({}, info)`. -/
  | queryUsers
  /-- The call `ctx.db.mutation.updateUser({ where: { email }, data })`. -/
  | updateUser (email : String)
  /-- The call `ctx.db.mutation.createUser({ data })`. -/
  | createUser
  /-- The call `ctx.db.mutation.createItem({ data })`. -/
  | createItem
  deriving DecidableEq, Repr

/-- Whether a store call writes. -/
def DbOp.isWrite : DbOp → Bool
  | .updateUser _ => true
  | .createUser => true
  | .createItem => true
  | _ => false

/-- What a resolver observes and changes. -/
structure World where
  /-- The users of the data store. -/
  users : List User
  /-- The `data` records of the items created in the data store. -/
  items : List Obj
  /-- The cookies set on `ctx.response`, oldest first. -/
  cookies : List Cookie
  /-- The mails accepted by the transport, oldest first. -/
  outbox : List Mail
  /-- The calls made on the data store, oldest first. -/
  log : List DbOp

/-- The libraries and process settings the resolvers use. -/
structure Env where
  /-- The method `String.prototype.toLowerCase` of the JavaScript runtime, which lowercases
  every letter Unicode gives a lowercase to. -/
  toLowerCase : String → String
  /-- The call `bcrypt.hash(password, 10)`. -/
  hash : String → String
  /-- The call `bcrypt.compare(password, hash)`. -/
  compare : String → String → Bool
  /-- The call `jwt.sign({ userId }, process.env.APP_SECRET)`. -/
  sign : String → String
  /-- The entropy source behind `randomBytes`: the byte drawn at each position. -/
  rng : Nat → Nat
  /-- Whether `transport.sendMail` resolves (`true`) or rejects (`false`) on a mail. -/
  sendMail : Mail → Bool
  /-- The template `makeANiceEmail` of `../mail`. -/
  makeANiceEmail : String → String
  /-- The setting `process.env.FRONTEND_URL`. -/
  frontendUrl : String
  /-- The id the data store gives to a new user. -/
  newId : List User → String

/-- The request part of the resolver context: `ctx.request.userId` and `ctx.request.user`. -/
structure Request where
  userId : Option String
  user : Option User

/-- The acknowledgement `{ message }` returned by `requestReset`. -/
structure Ack where
  message : String
  deriving DecidableEq, Repr

/-! ## The data store `ctx.db`

The store is an external service; these definitions give the meaning of the calls the
resolvers make on it.  `email` is a unique field of `User`: `query.user` and
`mutation.updateUser` address one record through it, and `createUser` rejects an email
already stored. -/

/-- Record a store call. -/
def World.logOp (w : World) (op : DbOp) : World := { w with log := w.log ++ [op] }

/-- The first user with the given email, as `query.user({ where: { email } })` returns it. -/
def findUserByEmail (users : List User) (email : String) : Option User :=
  users.find? (fun u => u.email == email)

/-- The filter `{ resetToken, resetTokenExpiry_gte }` of `query.users`: the token is the
stored one and the stored expiry is at least the bound; a cleared field matches nothing. -/
def User.matchesReset (u : User) (resetToken : String) (expiryGte : Int) : Bool :=
  u.resetToken == some resetToken &&
    (match u.resetTokenExpiry with
      | some x => decide (expiryGte ≤ x)
      | none => false)

/-- A user after `updateUser` with the `data` record `d`: a field present in `d` is
overwritten (`null` clears an optional field), the others are kept. -/
def User.applyData (u : User) (d : Obj) : User :=
  { u with
    password := match d "password" with
      | some (.str s) => s
      | _ => u.password
    resetToken := match d "resetToken" with
      | some (.str s) => some s
      | some .null => none
      | _ => u.resetToken
    resetTokenExpiry := match d "resetTokenExpiry" with
      | some (.num n) => some n
      | some .null => none
      | _ => u.resetTokenExpiry }

/-- The user list after `updateUser({ where: { email }, data: d })`: the record addressed by
`email` is replaced by its update. -/
def updateUserList (users : List User) (email : String) (d : Obj) : List User :=
  match users with
  | [] => []
  | u :: us =>
    if u.email = email then u.applyData d :: us else u :: updateUserList us email d

/-- The call `ctx.db.mutation.updateUser({ where: { email }, data: d })`: returns the updated
record, and fails when no record has that email. -/
def dbUpdateUser (w : World) (email : String) (d : Obj) : Except Err User × World :=
  let w1 := w.logOp (.updateUser email)
  match findUserByEmail w.users email with
  | none => (.error .StoreError, w1)
  | some u => (.ok (u.applyData d), { w1 with users := updateUserList w.users email d })

/-- The call `ctx.db.mutation.createUser({ data })`: `email` and `password` are required
strings and `email` is unique; the new record gets a fresh id. -/
def dbCreateUser (env : Env) (w : World) (data : Obj) : Except Err User × World :=
  let w1 := w.logOp .createUser
  match data "email", data "password" with
  | some (.str email), some (.str password) =>
    if (findUserByEmail w.users email).isSome then (.error .StoreError, w1)
    else
      let user : User :=
        { id := env.newId w.users
          name := match data "name" with
            | some (.str s) => some s
            | _ => none
          email := email
          password := password
          permissions := match data "permissions" with
            | some (.permSet ps) => ps
            | _ => []
          resetToken := match data "resetToken" with
            | some (.str s) => some s
            | _ => none
          resetTokenExpiry := match data "resetTokenExpiry" with
            | some (.num n) => some n
            | _ => none }
      (.ok user, { w1 with users := w.users ++ [user] })
  | _, _ => (.error .StoreError, w1)

/-! ## Library helpers -/

/-- One lowercase hexadecimal digit. -/
def hexDigit (d : Nat) : Char :=
  if d < 10 then Char.ofNat (48 + d) else Char.ofNat (87 + d)

/-- The method `Buffer.prototype.toString('hex')`: two digits for each byte. -/
def toHex (bytes : List Nat) : String :=
  String.mk (bytes.flatMap (fun b => [hexDigit (b / 16 % 16), hexDigit (b % 16)]))

/-- The call `randomBytes(n)`: `n` bytes from the entropy source. -/
def randomBytes (rng : Nat → Nat) (n : Nat) : List Nat :=
  (List.range n).map (fun i => rng i % 256)

/-- The options `{ httpOnly: true, maxAge: 1000 * 60 * 60 * 24 * 365 }` on the cookie `token`. -/
def tokenCookie (token : String) : Cookie :=
  { name := "token", value := token, httpOnly := true, maxAge := 1000 * 60 * 60 * 24 * 365 }

/-- The call `ctx.response.cookie('token', token, ...)`. -/
def World.setCookie (w : World) (token : String) : World :=
  { w with cookies := w.cookies ++ [tokenCookie token] }

/-- The call `ctx.db.mutation.createItem({ data })`: the record is stored and returned. -/
def dbCreateItem (w : World) (data : Obj) : Except Err Obj × World :=
  (.ok data, { w.logOp .createItem with items := w.items ++ [data] })

/-- Modelled from the spec: the helper `hasPermission` of `../utils`, whose file is not among
the sources.  Authorization passes if the permission set of the user intersects `requiredAny`,
and fails with `Forbidden` otherwise; the helper does not check the login state, and a
missing user is a runtime error. -/
def hasPermission (user : Option User) (requiredAny : List String) : Except Err Bool :=
  match user with
  | none => .error .TypeError
  | some u =>
    if u.permissions.any (fun p => requiredAny.contains p) then .ok true
    else .error .Forbidden

/-! ## Resolvers of `Mutation.js` -/

/-- The resolver `createItem`. -/
def createItem (req : Request) (args : Obj) (w : World) : Except Err Obj × World :=
  match req.userId with
  | none => (.error .NotAuthenticated, w)
  | some userId =>
    if !truthy (some userId) then (.error .NotAuthenticated, w)
    else dbCreateItem w ((Obj.empty.set "user" (.connect userId)).spread args)

/-- The resolver `signup`. -/
def signup (env : Env) (args : Obj) (w : World) : Except Err User × World :=
  match args "email" with
  | some (.str email) =>
    let args := args.set "email" (.str (env.toLowerCase email))
    match args "password" with
    | some (.str plain) =>
      let password := env.hash plain
      let data := ((Obj.empty.spread args).set "password" (.str password)).set
        "permissions" (.permSet ["USER"])
      match dbCreateUser env w data with
      | (.error e, w1) => (.error e, w1)
      | (.ok user, w1) => (.ok user, w1.setCookie (env.sign user.id))
    | _ => (.error .TypeError, w)
  | _ => (.error .TypeError, w)

/-- The resolver `signin`. -/
def signin (env : Env) (email password : String) (w : World) : Except Err User × World :=
  let w1 := w.logOp (.queryUser email)
  match findUserByEmail w.users email with
  | none => (.error (.UserNotFound email), w1)
  | some user =>
    if !env.compare password user.password then (.error .InvalidPassword, w1)
    else (.ok user, w1.setCookie (env.sign user.id))

/-- The mail `requestReset` hands to the transport. -/
def resetMail (env : Env) (user : User) (resetToken : String) : Mail :=
  { sender := "charpellumeh@gmail.com"
    recipient := user.email
    subject := "Your Password Reset Token"
    html := env.makeANiceEmail ("Your Password Reset Token is here! \n      \n\n <a href=\""
      ++ env.frontendUrl ++ "/reset?resetToken=" ++ resetToken
      ++ "\">Click Here to Reset</a>") }

/-- The resolver `requestReset`; `now` is the value of `Date.now()`. -/
def requestReset (env : Env) (now : Int) (email : String) (w : World) :
    Except Err Ack × World :=
  let w1 := w.logOp (.queryUser email)
  match findUserByEmail w.users email with
  | none => (.error (.UserNotFound email), w1)
  | some user =>
    let resetToken := toHex (randomBytes env.rng 20)
    let resetTokenExpiry := now + 3600000
    match dbUpdateUser w1 email
        ((Obj.empty.set "resetToken" (.str resetToken)).set
          "resetTokenExpiry" (.num resetTokenExpiry)) with
    | (.error e, w2) => (.error e, w2)
    | (.ok _, w2) =>
      let mail := resetMail env user resetToken
      if env.sendMail mail then
        (.ok { message := "Thanks!" }, { w2 with outbox := w2.outbox ++ [mail] })
      else (.error .MailError, w2)

/-- The arguments of `resetPassword`. -/
structure ResetArgs where
  resetToken : String
  password : String
  confirmPassword : String
  deriving DecidableEq, Repr

/-- The resolver `resetPassword`; `now` is the value of `Date.now()`. -/
def resetPassword (env : Env) (now : Int) (args : ResetArgs) (w : World) :
    Except Err User × World :=
  if args.password ≠ args.confirmPassword then (.error .PasswordMismatch, w)
  else
    let bound := now - 3600000
    let w1 := w.logOp (.queryUsersWhere args.resetToken bound)
    match w.users.filter (fun u => u.matchesReset args.resetToken bound) with
    | [] => (.error .InvalidOrExpiredToken, w1)
    | user :: _ =>
      let password := env.hash args.password
      match dbUpdateUser w1 user.email
          (((Obj.empty.set "password" (.str password)).set "resetToken" .null).set
            "resetTokenExpiry" .null) with
      | (.error e, w2) => (.error e, w2)
      | (.ok updatedUser, w2) => (.ok updatedUser, w2.setCookie (env.sign updatedUser.id))

/-! ## Resolvers of `Query.js` -/

/-- The resolver `users`. -/
def users (req : Request) (w : World) : Except Err (List User) × World :=
  if !truthy req.userId then (.error .NotAuthenticated, w)
  else
    match hasPermission req.user ["ADMIN", "PERMISSIONUPDATE"] with
    | .error e => (.error e, w)
    | .ok _ => (.ok w.users, w.logOp .queryUsers)

/-! ## Sample data -/

/-- Lowercasing of the letters `A` to `Z`, the action of `String.prototype.toLowerCase` on a
string of ASCII characters; it stands for that method in the sample environment, whose emails
are ASCII. -/
def asciiLowerCase (s : String) : String := String.mk (s.data.map Char.toLower)

/-- A sample environment: hashing prefixes the password, every mail is accepted. -/
def sampleEnv : Env :=
  { toLowerCase := asciiLowerCase
    hash := fun p => "$2a$10$" ++ p
    compare := fun p h => h == "$2a$10$" ++ p
    sign := fun id => "jwt." ++ id
    rng := fun i => 7 * i + 3
    sendMail := fun _ => true
    makeANiceEmail := fun text => "<div>" ++ text ++ "</div>"
    frontendUrl := "http://localhost:7777"
    newId := fun us => "u" ++ toString us.length }

/-- The sample environment with a transport that rejects every mail. -/
def failingMailEnv : Env := { sampleEnv with sendMail := fun _ => false }

/-- A sample stored user. -/
def alice : User :=
  { id := "u0", name := some "Alice", email := "alice@example.com", password := "$2a$10$pw",
    permissions := ["USER"], resetToken := none, resetTokenExpiry := none }

/-- A second sample stored user, holding a reset token issued at time `0`. -/
def bob : User :=
  { id := "u1", name := some "Bob", email := "bob@example.com", password := "$2a$10$old",
    permissions := ["USER", "ADMIN"], resetToken := some "k", resetTokenExpiry := some 3600000 }

/-- A sample world with two stored users and nothing else. -/
def sampleWorld : World :=
  { users := [alice, bob], items := [], cookies := [], outbox := [], log := [] }

/-- A sample `args` record for `signup`, carrying a `permissions` field of its own. -/
def sampleSignupArgs : Obj :=
  (((Obj.empty.set "email" (.str "A@B.com")).set "password" (.str "pw")).set
    "name" (.str "Ann")).set "permissions" (.permSet ["ADMIN"])

/-! ## Lemmas on the data store -/

theorem matchesReset_iff (u : User) (token : String) (bound : Int) :
    u.matchesReset token bound = true ↔
      u.resetToken = some token ∧ ∃ x, u.resetTokenExpiry = some x ∧ bound ≤ x := by
  unfold User.matchesReset
  cases h : u.resetTokenExpiry <;> simp

theorem findUserByEmail_some_of_mem {users : List User} {u : User} (h : u ∈ users) :
    ∃ v, findUserByEmail users u.email = some v ∧ v ∈ users ∧ v.email = u.email := by
  unfold findUserByEmail
  cases hf : users.find? (fun v => v.email == u.email) with
  | none =>
    rw [List.find?_eq_none] at hf
    exact absurd (hf u h) (by simp)
  | some v =>
    refine ⟨v, rfl, List.mem_of_find?_eq_some hf, ?_⟩
    have := List.find?_some hf
    simpa using this

theorem findUserByEmail_email {users : List User} {e : String} {u : User}
    (h : findUserByEmail users e = some u) : u ∈ users ∧ u.email = e := by
  unfold findUserByEmail at h
  refine ⟨List.mem_of_find?_eq_some h, ?_⟩
  have := List.find?_some h
  simpa using this

theorem findUserByEmail_eq_none {users : List User} {e : String} :
    findUserByEmail users e = none ↔ ∀ u ∈ users, u.email ≠ e := by
  unfold findUserByEmail
  rw [List.find?_eq_none]
  simp

theorem dbUpdateUser_of_find {w : World} {e : String} {u : User} (d : Obj)
    (h : findUserByEmail w.users e = some u) :
    dbUpdateUser w e d =
      (.ok (u.applyData d),
        { w.logOp (.updateUser e) with users := updateUserList w.users e d }) := by
  unfold dbUpdateUser
  simp only [h]

theorem updateUserList_eq_map {users : List User} (e : String) (d : Obj)
    (hnd : (users.map (fun u => u.email)).Nodup) :
    updateUserList users e d =
      users.map (fun u => if u.email = e then u.applyData d else u) := by
  induction users with
  | nil => rfl
  | cons u us ih =>
    rw [List.map_cons, List.nodup_cons] at hnd
    obtain ⟨hnot, hrest⟩ := hnd
    unfold updateUserList
    by_cases hue : u.email = e
    · have hid : us.map (fun v => if v.email = e then v.applyData d else v) = us := by
        conv_rhs => rw [← List.map_id us]
        apply List.map_congr_left
        intro v hv
        have hne : v.email ≠ e := by
          intro hve
          exact hnot (List.mem_map.mpr ⟨v, hv, by rw [hve, hue]⟩)
        simp [hne]
      simp only [hue, if_true, List.map_cons, hid]
    · simp only [hue, if_false, List.map_cons, ih hrest]

theorem eq_of_email_eq {users : List User}
    (hnd : (users.map (fun u => u.email)).Nodup) {u v : User}
    (hu : u ∈ users) (hv : v ∈ users) (h : u.email = v.email) : u = v :=
  List.inj_on_of_nodup_map hnd hu hv h

/-- The `data` record of the update `resetPassword` sends: the new hash, both reset fields
cleared. -/
theorem applyData_redeem (u : User) (h : String) :
    u.applyData (((Obj.empty.set "password" (.str h)).set "resetToken" .null).set
        "resetTokenExpiry" .null) =
      { u with password := h, resetToken := none, resetTokenExpiry := none } := rfl

theorem resetPassword_of_filter_nil (env : Env) (now : Int) (args : ResetArgs) (w : World)
    (heq : args.password = args.confirmPassword)
    (hf : w.users.filter (fun u => u.matchesReset args.resetToken (now - 3600000)) = []) :
    resetPassword env now args w =
      (.error .InvalidOrExpiredToken,
        w.logOp (.queryUsersWhere args.resetToken (now - 3600000))) := by
  unfold resetPassword
  simp only [ne_eq, heq, not_true_eq_false, if_false, hf]

theorem resetPassword_of_filter_cons (env : Env) (now : Int) (args : ResetArgs) (w : World)
    (heq : args.password = args.confirmPassword) (user : User) (rest : List User)
    (hf : w.users.filter (fun u => u.matchesReset args.resetToken (now - 3600000))
      = user :: rest) :
    ∃ v, findUserByEmail w.users user.email = some v ∧
      resetPassword env now args w =
        (.ok { v with password := env.hash args.password, resetToken := none,
                      resetTokenExpiry := none },
          World.setCookie
            { (w.logOp (.queryUsersWhere args.resetToken (now - 3600000))).logOp
                (.updateUser user.email) with
              users := updateUserList w.users user.email
                (((Obj.empty.set "password" (.str (env.hash args.password))).set
                  "resetToken" .null).set "resetTokenExpiry" .null) }
            (env.sign v.id)) := by
  have hmem : user ∈ w.users.filter
      (fun u => u.matchesReset args.resetToken (now - 3600000)) := by
    rw [hf]; exact List.mem_cons_self _ _
  obtain ⟨v, hv, _, _⟩ := findUserByEmail_some_of_mem (List.mem_filter.mp hmem).1
  refine ⟨v, hv, ?_⟩
  have hv1 : findUserByEmail
      (w.logOp (.queryUsersWhere args.resetToken (now - 3600000))).users user.email
        = some v := hv
  unfold resetPassword
  simp only [ne_eq, heq, not_true_eq_false, if_false, hf, dbUpdateUser_of_find _ hv1,
    applyData_redeem]
  rfl

/-- The `data` record of the update `requestReset` sends: the token and its expiry. -/
theorem applyData_issue (u : User) (token : String) (expiry : Int) :
    u.applyData ((Obj.empty.set "resetToken" (.str token)).set
        "resetTokenExpiry" (.num expiry)) =
      { u with resetToken := some token, resetTokenExpiry := some expiry } := rfl

theorem updateUserList_split {users : List User} {e : String} {u : User} (d : Obj)
    (h : findUserByEmail users e = some u) :
    ∃ pre post, users = pre ++ u :: post ∧ (∀ x ∈ pre, x.email ≠ e) ∧
      updateUserList users e d = pre ++ u.applyData d :: post := by
  induction users with
  | nil => simp [findUserByEmail] at h
  | cons x xs ih =>
    unfold updateUserList
    by_cases hx : x.email = e
    · have hxu : x = u := by
        simpa [findUserByEmail, List.find?_cons, hx] using h
      subst hxu
      exact ⟨[], xs, rfl, by simp, by simp [hx]⟩
    · have h2 : findUserByEmail xs e = some u := by
        simpa [findUserByEmail, List.find?_cons, hx] using h
      obtain ⟨pre, post, hsplit, hpre, hupd⟩ := ih h2
      refine ⟨x :: pre, post, by rw [hsplit]; rfl, ?_, by simp [hx, hupd]⟩
      intro y hy
      rcases List.mem_cons.mp hy with rfl | hy
      · exact hx
      · exact hpre y hy

theorem hexDigit_mem (d : Nat) (h : d < 16) : hexDigit d ∈ "0123456789abcdef".toList := by
  interval_cases d <;> decide

theorem toHex_length (bytes : List Nat) : (toHex bytes).length = 2 * bytes.length := by
  unfold toHex
  rw [String.length_mk]
  induction bytes with
  | nil => rfl
  | cons b bs ih => simp only [List.flatMap_cons, List.length_append, ih, List.length_cons,
      List.length_nil]; omega

theorem toHex_chars (bytes : List Nat) :
    ∀ c ∈ (toHex bytes).toList, c ∈ "0123456789abcdef".toList := by
  intro c hc
  unfold toHex at hc
  simp only [String.toList, List.mem_flatMap, List.mem_cons, List.mem_singleton,
    List.not_mem_nil, or_false] at hc
  obtain ⟨b, _, rfl | rfl⟩ := hc
  · exact hexDigit_mem _ (Nat.mod_lt _ (by decide))
  · exact hexDigit_mem _ (by omega)

theorem randomBytes_length (rng : Nat → Nat) (n : Nat) : (randomBytes rng n).length = n := by
  simp [randomBytes]

/-- What `requestReset` does once the user is found and the store update is made. -/
theorem requestReset_of_find (env : Env) (now : Int) (email : String) (w : World) (user : User)
    (h : findUserByEmail w.users email = some user) :
    requestReset env now email w =
      if env.sendMail (resetMail env user (toHex (randomBytes env.rng 20))) then
        (.ok { message := "Thanks!" },
          { (w.logOp (.queryUser email)).logOp (.updateUser email) with
            users := updateUserList w.users email
              ((Obj.empty.set "resetToken" (.str (toHex (randomBytes env.rng 20)))).set
                "resetTokenExpiry" (.num (now + 3600000)))
            outbox := w.outbox ++ [resetMail env user (toHex (randomBytes env.rng 20))] })
      else
        (.error .MailError,
          { (w.logOp (.queryUser email)).logOp (.updateUser email) with
            users := updateUserList w.users email
              ((Obj.empty.set "resetToken" (.str (toHex (randomBytes env.rng 20)))).set
                "resetTokenExpiry" (.num (now + 3600000))) }) := by
  have h1 : findUserByEmail (w.logOp (.queryUser email)).users email = some user := h
  unfold requestReset
  simp only [h, dbUpdateUser_of_find _ h1]
  rfl

theorem requestReset_of_not_find (env : Env) (now : Int) (email : String) (w : World)
    (h : findUserByEmail w.users email = none) :
    requestReset env now email w =
      (.error (.UserNotFound email), w.logOp (.queryUser email)) := by
  unfold requestReset
  simp only [h]

/-! ## Theorems on `resetPassword` -/

/-- Claim C1: `resetPassword` fails with `PasswordMismatch` when the two passwords differ,
leaving the whole world (store, cookies, the sequence of store calls) as it was; with equal
passwords it fails with `InvalidOrExpiredToken` exactly when no stored user holds the supplied
token with `resetTokenExpiry >= now - 3600000`, and returns a user otherwise; in particular
it fails when every holder of the token has `resetTokenExpiry < now - 3600000`. -/
theorem resetPassword_outcome (env : Env) (now : Int) (args : ResetArgs) (w : World) :
    (args.password ≠ args.confirmPassword →
      resetPassword env now args w = (.error .PasswordMismatch, w)) ∧
    (args.password = args.confirmPassword →
      ((resetPassword env now args w).1 = .error .InvalidOrExpiredToken ↔
        ¬ ∃ u ∈ w.users, u.resetToken = some args.resetToken ∧
            ∃ x, u.resetTokenExpiry = some x ∧ now - 3600000 ≤ x) ∧
      ((∃ u ∈ w.users, u.resetToken = some args.resetToken ∧
            ∃ x, u.resetTokenExpiry = some x ∧ now - 3600000 ≤ x) →
        ∃ updated, (resetPassword env now args w).1 = .ok updated)) ∧
    (args.password = args.confirmPassword →
      (∀ u ∈ w.users, u.resetToken = some args.resetToken →
        ∀ x, u.resetTokenExpiry = some x → x < now - 3600000) →
      (resetPassword env now args w).1 = .error .InvalidOrExpiredToken) := by
  have key : args.password = args.confirmPassword →
      ((resetPassword env now args w).1 = .error .InvalidOrExpiredToken ↔
        ¬ ∃ u ∈ w.users, u.resetToken = some args.resetToken ∧
            ∃ x, u.resetTokenExpiry = some x ∧ now - 3600000 ≤ x) ∧
      ((∃ u ∈ w.users, u.resetToken = some args.resetToken ∧
            ∃ x, u.resetTokenExpiry = some x ∧ now - 3600000 ≤ x) →
        ∃ updated, (resetPassword env now args w).1 = .ok updated) := by
    intro heq
    unfold resetPassword
    simp only [ne_eq, heq, not_true_eq_false, if_false]
    cases hf : w.users.filter (fun u => u.matchesReset args.resetToken (now - 3600000)) with
    | nil =>
      have hnone : ¬ ∃ u ∈ w.users, u.resetToken = some args.resetToken ∧
          ∃ x, u.resetTokenExpiry = some x ∧ now - 3600000 ≤ x := by
        rintro ⟨u, hu, hm⟩
        have : u ∈ w.users.filter (fun u => u.matchesReset args.resetToken (now - 3600000)) :=
          List.mem_filter.mpr ⟨hu, (matchesReset_iff _ _ _).mpr hm⟩
        rw [hf] at this
        exact absurd this (List.not_mem_nil u)
      exact ⟨⟨fun _ => hnone, fun _ => rfl⟩, fun h => absurd h hnone⟩
    | cons user rest =>
      have hmem : user ∈ w.users.filter
          (fun u => u.matchesReset args.resetToken (now - 3600000)) := by
        rw [hf]; exact List.mem_cons_self _ _
      obtain ⟨hu, hm⟩ := List.mem_filter.mp hmem
      have hex : ∃ u ∈ w.users, u.resetToken = some args.resetToken ∧
          ∃ x, u.resetTokenExpiry = some x ∧ now - 3600000 ≤ x :=
        ⟨user, hu, (matchesReset_iff _ _ _).mp hm⟩
      obtain ⟨v, hv, _, _⟩ := findUserByEmail_some_of_mem hu
      have hv1 : findUserByEmail
          (w.logOp (.queryUsersWhere args.resetToken (now - 3600000))).users user.email
            = some v := hv
      simp only [dbUpdateUser_of_find _ hv1]
      exact ⟨⟨fun h => Except.noConfusion h, fun h => absurd hex h⟩, fun _ => ⟨_, rfl⟩⟩
  refine ⟨?_, key, ?_⟩
  · intro hne
    unfold resetPassword
    simp only [ne_eq, hne, not_false_eq_true, if_true]
  · intro heq hall
    refine ((key heq).1).mpr ?_
    rintro ⟨u, hu, ht, x, hx, hle⟩
    exact absurd hle (not_le.mpr (hall u hu ht x hx))

/-- Claim C4: in a store where at most one user holds the token `args.resetToken` (emails
being unique, as the store enforces), a successful `resetPassword` makes one store update,
on the matched user: it sets the password to the hash of the new one and clears `resetToken`
and `resetTokenExpiry` together, every other user is unchanged, and any following
`resetPassword` with the same token and matching passwords fails with
`InvalidOrExpiredToken`. -/
theorem resetPassword_redeems_once (env : Env) (now : Int) (args : ResetArgs) (w : World)
    (hunique : (w.users.map (fun u => u.email)).Nodup)
    (hone : ∀ u ∈ w.users, ∀ v ∈ w.users,
      u.resetToken = some args.resetToken → v.resetToken = some args.resetToken → u = v)
    (updated : User) (hok : (resetPassword env now args w).1 = .ok updated) :
    ∃ m ∈ w.users, m.resetToken = some args.resetToken ∧
      updated = { m with password := env.hash args.password, resetToken := none,
                         resetTokenExpiry := none } ∧
      (resetPassword env now args w).2.users =
        w.users.map (fun u => if u = m then updated else u) ∧
      (resetPassword env now args w).2.log =
        w.log ++ [.queryUsersWhere args.resetToken (now - 3600000), .updateUser m.email] ∧
      ∀ (now2 : Int) (args2 : ResetArgs), args2.resetToken = args.resetToken →
        args2.password = args2.confirmPassword →
        (resetPassword env now2 args2 (resetPassword env now args w).2).1 =
          .error .InvalidOrExpiredToken := by
  have heq : args.password = args.confirmPassword := by
    by_contra hne
    have : resetPassword env now args w = (.error .PasswordMismatch, w) := by
      unfold resetPassword
      simp only [ne_eq, hne, not_false_eq_true, if_true]
    rw [this] at hok
    exact Except.noConfusion hok
  cases hf : w.users.filter (fun u => u.matchesReset args.resetToken (now - 3600000)) with
  | nil =>
    rw [resetPassword_of_filter_nil env now args w heq hf] at hok
    exact Except.noConfusion hok
  | cons m rest =>
    obtain ⟨v, hv, hres⟩ := resetPassword_of_filter_cons env now args w heq m rest hf
    have hmem : m ∈ w.users.filter
        (fun u => u.matchesReset args.resetToken (now - 3600000)) := by
      rw [hf]; exact List.mem_cons_self _ _
    obtain ⟨hm, hmatch⟩ := List.mem_filter.mp hmem
    have htok : m.resetToken = some args.resetToken := ((matchesReset_iff _ _ _).mp hmatch).1
    obtain ⟨hvmem, hvemail⟩ := findUserByEmail_email hv
    have hvm : v = m := eq_of_email_eq hunique hvmem hm hvemail
    subst hvm
    rw [hres] at hok
    have hupd : updated =
        { v with password := env.hash args.password, resetToken := none,
                 resetTokenExpiry := none } := by
      injection hok with h
      exact h.symm
    have husers : (resetPassword env now args w).2.users =
        w.users.map (fun u => if u = v then updated else u) := by
      rw [hres]
      show updateUserList w.users v.email _ = _
      rw [updateUserList_eq_map _ _ hunique]
      apply List.map_congr_left
      intro u hu
      by_cases huv : u = v
      · subst huv
        simp only [if_true, applyData_redeem, hupd]
      · have hne : u.email ≠ v.email := fun h => huv (eq_of_email_eq hunique hu hm h)
        simp only [huv, hne, if_false]
    refine ⟨v, hm, htok, hupd, husers, ?_, ?_⟩
    · rw [hres]
      show (w.log ++ [_]) ++ [_] = _
      simp
    · intro now2 args2 htok2 heq2
      have hnil : (resetPassword env now args w).2.users.filter
          (fun u => u.matchesReset args2.resetToken (now2 - 3600000)) = [] := by
        rw [List.filter_eq_nil_iff]
        intro x hx hmx
        have hxt : x.resetToken = some args.resetToken := by
          rw [← htok2]; exact ((matchesReset_iff _ _ _).mp hmx).1
        rw [husers, List.mem_map] at hx
        obtain ⟨u, hu, hux⟩ := hx
        by_cases huv : u = v
        · rw [if_pos huv] at hux
          rw [← hux, hupd] at hxt
          exact Option.noConfusion hxt
        · rw [if_neg huv] at hux
          subst hux
          exact huv (hone u hu v hm hxt htok)
      rw [resetPassword_of_filter_nil env now2 args2 _ heq2 hnil]

/-- Witness of `resetPassword_redeems_once`: Bob redeems his token `k` in the sample world. -/
theorem resetPassword_redeems_once_witness :
    ∃ m ∈ sampleWorld.users, m.resetToken = some "k" ∧
      ({ bob with password := "$2a$10$new", resetToken := none, resetTokenExpiry := none }
          : User) =
        { m with password := sampleEnv.hash "new", resetToken := none,
                 resetTokenExpiry := none } ∧
      (resetPassword sampleEnv 1000 ⟨"k", "new", "new"⟩ sampleWorld).2.users =
        sampleWorld.users.map (fun u => if u = m then
          { bob with password := "$2a$10$new", resetToken := none, resetTokenExpiry := none }
          else u) ∧
      (resetPassword sampleEnv 1000 ⟨"k", "new", "new"⟩ sampleWorld).2.log =
        sampleWorld.log ++ [.queryUsersWhere "k" (1000 - 3600000), .updateUser m.email] ∧
      ∀ (now2 : Int) (args2 : ResetArgs), args2.resetToken = "k" →
        args2.password = args2.confirmPassword →
        (resetPassword sampleEnv now2 args2
          (resetPassword sampleEnv 1000 ⟨"k", "new", "new"⟩ sampleWorld).2).1 =
          .error .InvalidOrExpiredToken :=
  resetPassword_redeems_once sampleEnv 1000 ⟨"k", "new", "new"⟩ sampleWorld
    (by decide) (by decide) _ (by decide)

/-! ## Theorems on `requestReset` -/

/-- Claim C5: the token `requestReset` draws is the hex encoding of 20 bytes, so 40 characters
each among `0-9a-f`; when a stored user has the email, that user (the record the store
addresses by the email) gets this `resetToken` and `resetTokenExpiry = now + 3600000`, its
other fields and all other users staying as they were; when no stored user has the email,
`requestReset` fails with `UserNotFound`, the only store call is the lookup, the users are
unchanged and no mail is sent. -/
theorem requestReset_writes_token (env : Env) (now : Int) (email : String) (w : World) :
    ((randomBytes env.rng 20).length = 20 ∧
      (toHex (randomBytes env.rng 20)).length = 40 ∧
      ∀ c ∈ (toHex (randomBytes env.rng 20)).toList, c ∈ "0123456789abcdef".toList) ∧
    (∀ user, findUserByEmail w.users email = some user →
      user ∈ w.users ∧ user.email = email ∧
      ∃ pre post, w.users = pre ++ user :: post ∧ (∀ x ∈ pre, x.email ≠ email) ∧
        (requestReset env now email w).2.users =
          pre ++ { user with resetToken := some (toHex (randomBytes env.rng 20)),
                             resetTokenExpiry := some (now + 3600000) } :: post) ∧
    ((∀ u ∈ w.users, u.email ≠ email) →
      (requestReset env now email w).1 = .error (.UserNotFound email) ∧
      (requestReset env now email w).2.users = w.users ∧
      (requestReset env now email w).2.log = w.log ++ [.queryUser email] ∧
      (requestReset env now email w).2.outbox = w.outbox) := by
  refine ⟨⟨randomBytes_length _ _, ?_, toHex_chars _⟩, ?_, ?_⟩
  · rw [toHex_length, randomBytes_length]
  · intro user hfind
    obtain ⟨hmem, hemail⟩ := findUserByEmail_email hfind
    refine ⟨hmem, hemail, ?_⟩
    obtain ⟨pre, post, hsplit, hpre, hupd⟩ := updateUserList_split
      ((Obj.empty.set "resetToken" (.str (toHex (randomBytes env.rng 20)))).set
        "resetTokenExpiry" (.num (now + 3600000))) hfind
    refine ⟨pre, post, hsplit, hpre, ?_⟩
    rw [requestReset_of_find env now email w user hfind, ← applyData_issue, ← hupd]
    split <;> rfl
  · intro hnone
    rw [requestReset_of_not_find env now email w (findUserByEmail_eq_none.mpr hnone)]
    exact ⟨rfl, rfl, rfl, rfl⟩

/-- Claim C3, as the code has it: for an email of a stored user, when the mail transport
rejects the mail, `requestReset` fails with that mail error after the token has been written
to the store; when the transport accepts the mail, `requestReset` returns its acknowledgement
and the mail is in the outbox. -/
theorem requestReset_mail_failure_propagates (env : Env) (now : Int) (email : String)
    (w : World) (user : User) (hfind : findUserByEmail w.users email = some user) :
    (env.sendMail (resetMail env user (toHex (randomBytes env.rng 20))) = false →
      (requestReset env now email w).1 = .error .MailError ∧
      (requestReset env now email w).2.outbox = w.outbox ∧
      (requestReset env now email w).2.users =
        updateUserList w.users email
          ((Obj.empty.set "resetToken" (.str (toHex (randomBytes env.rng 20)))).set
            "resetTokenExpiry" (.num (now + 3600000)))) ∧
    (env.sendMail (resetMail env user (toHex (randomBytes env.rng 20))) = true →
      (requestReset env now email w).1 = .ok { message := "Thanks!" } ∧
      (requestReset env now email w).2.outbox =
        w.outbox ++ [resetMail env user (toHex (randomBytes env.rng 20))]) := by
  rw [requestReset_of_find env now email w user hfind]
  constructor
  · intro hfail
    rw [hfail]
    exact ⟨rfl, rfl, rfl⟩
  · intro hsent
    rw [hsent]
    exact ⟨rfl, rfl⟩

/-- Witness of `requestReset_mail_failure_propagates`: Alice asks for a reset in the sample
world. -/
theorem requestReset_mail_failure_propagates_witness :
    (sampleEnv.sendMail (resetMail sampleEnv alice (toHex (randomBytes sampleEnv.rng 20)))
        = false →
      (requestReset sampleEnv 0 "alice@example.com" sampleWorld).1 = .error .MailError ∧
      (requestReset sampleEnv 0 "alice@example.com" sampleWorld).2.outbox
        = sampleWorld.outbox ∧
      (requestReset sampleEnv 0 "alice@example.com" sampleWorld).2.users =
        updateUserList sampleWorld.users "alice@example.com"
          ((Obj.empty.set "resetToken" (.str (toHex (randomBytes sampleEnv.rng 20)))).set
            "resetTokenExpiry" (.num (0 + 3600000)))) ∧
    (sampleEnv.sendMail (resetMail sampleEnv alice (toHex (randomBytes sampleEnv.rng 20)))
        = true →
      (requestReset sampleEnv 0 "alice@example.com" sampleWorld).1
        = .ok { message := "Thanks!" } ∧
      (requestReset sampleEnv 0 "alice@example.com" sampleWorld).2.outbox =
        sampleWorld.outbox ++
          [resetMail sampleEnv alice (toHex (randomBytes sampleEnv.rng 20))]) :=
  requestReset_mail_failure_propagates sampleEnv 0 "alice@example.com" sampleWorld alice
    (by decide)

/-- Counterexample to claim C3 as stated: Alice is a stored user, the transport rejects the
mail, and `requestReset` does not return its acknowledgement but fails with the mail error. -/
theorem requestReset_mail_failure_counterexample :
    alice ∈ sampleWorld.users ∧
    failingMailEnv.sendMail
      (resetMail failingMailEnv alice (toHex (randomBytes failingMailEnv.rng 20))) = false ∧
    (requestReset failingMailEnv 0 "alice@example.com" sampleWorld).1 = .error .MailError ∧
    ¬ ∃ ack, (requestReset failingMailEnv 0 "alice@example.com" sampleWorld).1 = .ok ack := by
  refine ⟨by decide, rfl, by decide, ?_⟩
  rintro ⟨ack, h⟩
  have h2 : (requestReset failingMailEnv 0 "alice@example.com" sampleWorld).1
      = .error .MailError := by decide
  rw [h2] at h
  exact Except.noConfusion h

/-- The window check on a token issued at time `t`, hence stored with
`resetTokenExpiry = t + 3600000`: it accepts exactly while `now - t <= 7200000`, whereas the
direct comparison `resetTokenExpiry >= now` holds exactly while `now - t <= 3600000`. -/
theorem matchesReset_issued_iff (u : User) (token : String) (t now : Int)
    (htok : u.resetToken = some token) (hexp : u.resetTokenExpiry = some (t + 3600000)) :
    (u.matchesReset token (now - 3600000) = true ↔ now - t ≤ 7200000) ∧
    (t + 3600000 ≥ now ↔ now - t ≤ 3600000) := by
  constructor
  · rw [matchesReset_iff]
    constructor
    · rintro ⟨_, x, hx, hle⟩
      rw [hexp] at hx
      injection hx with hx
      omega
    · intro h
      exact ⟨htok, t + 3600000, hexp, by omega⟩
  · constructor <;> intro h <;> omega

/-- Claim C2, evaluated on the code: Alice's token is issued by `requestReset` at time `0`
with `resetTokenExpiry = 3600000`; at time `5000000`, later than the expiry and more than an
hour after the issue, the direct comparison `resetTokenExpiry >= now` rejects the token but
the window check of `resetPassword` accepts it and the password is reset. -/
theorem resetPassword_accepts_expired_token :
    (∃ u ∈ (requestReset sampleEnv 0 "alice@example.com" sampleWorld).2.users,
      u.email = "alice@example.com" ∧
      u.resetToken = some (toHex (randomBytes sampleEnv.rng 20)) ∧
      u.resetTokenExpiry = some (0 + 3600000)) ∧
    ¬ ((5000000 : Int) - 0 ≤ 3600000) ∧
    ¬ ((0 : Int) + 3600000 ≥ 5000000) ∧
    (resetPassword sampleEnv 5000000
        ⟨toHex (randomBytes sampleEnv.rng 20), "new", "new"⟩
        (requestReset sampleEnv 0 "alice@example.com" sampleWorld).2).1 =
      .ok { alice with password := "$2a$10$new" } := by
  refine ⟨?_, by decide, by decide, by decide⟩
  refine ⟨{ alice with resetToken := some (toHex (randomBytes sampleEnv.rng 20)),
                       resetTokenExpiry := some (0 + 3600000) }, by decide, rfl, rfl, rfl⟩

/-! ## Theorems on `signin` -/

/-- Claim C7: `signin` fails with `UserNotFound` exactly when no stored user has the email;
when the store returns a user for the email, it fails with `InvalidPassword` exactly when
the password does not verify against the stored hash, and otherwise returns that user and
sets the cookie `token` to the session credential signed for the user's id; on every failure
no cookie is set and the stored users are unchanged. -/
theorem signin_outcome (env : Env) (email password : String) (w : World) :
    ((signin env email password w).1 = .error (.UserNotFound email) ↔
      ∀ u ∈ w.users, u.email ≠ email) ∧
    (∀ user, findUserByEmail w.users email = some user →
      user ∈ w.users ∧ user.email = email ∧
      ((signin env email password w).1 = .error .InvalidPassword ↔
        env.compare password user.password = false) ∧
      (env.compare password user.password = true →
        (signin env email password w).1 = .ok user ∧
        (signin env email password w).2.cookies =
          w.cookies ++ [{ name := "token", value := env.sign user.id, httpOnly := true,
                          maxAge := 31536000000 }] ∧
        (signin env email password w).2.users = w.users)) ∧
    (∀ e, (signin env email password w).1 = .error e →
      (e = .UserNotFound email ∨ e = .InvalidPassword) ∧
      (signin env email password w).2.cookies = w.cookies ∧
      (signin env email password w).2.users = w.users) := by
  cases hfind : findUserByEmail w.users email with
  | none =>
    have hres : signin env email password w =
        (.error (.UserNotFound email), w.logOp (.queryUser email)) := by
      unfold signin
      simp only [hfind]
    rw [hres]
    refine ⟨⟨fun _ => findUserByEmail_eq_none.mp hfind, fun _ => rfl⟩, ?_, ?_⟩
    · intro user huser
      exact Option.noConfusion huser
    · intro e he
      refine ⟨Or.inl ?_, rfl, rfl⟩
      injection he with he
      exact he.symm
  | some found =>
    obtain ⟨hmem, hemail⟩ := findUserByEmail_email hfind
    have hnot : ¬ ∀ u ∈ w.users, u.email ≠ email := fun h => h found hmem hemail
    cases hcmp : env.compare password found.password with
    | false =>
      have hres : signin env email password w =
          (.error .InvalidPassword, w.logOp (.queryUser email)) := by
        unfold signin
        simp only [hfind, hcmp, Bool.not_false, if_true]
      rw [hres]
      refine ⟨⟨fun h => ?_, fun h => absurd h hnot⟩, ?_, ?_⟩
      · injection h with h
        exact Err.noConfusion h
      · intro user huser
        injection huser with huser
        subst huser
        refine ⟨hmem, hemail, ⟨fun _ => hcmp, fun _ => rfl⟩, ?_⟩
        intro htrue
        rw [hcmp] at htrue
        exact Bool.noConfusion htrue
      · intro e he
        refine ⟨Or.inr ?_, rfl, rfl⟩
        injection he with he
        exact he.symm
    | true =>
      have hres : signin env email password w =
          (.ok found, (w.logOp (.queryUser email)).setCookie (env.sign found.id)) := by
        unfold signin
        simp only [hfind, hcmp, Bool.not_true, Bool.false_eq_true, if_false]
      rw [hres]
      refine ⟨⟨fun h => Except.noConfusion h, fun h => absurd h hnot⟩, ?_, ?_⟩
      · intro user huser
        injection huser with huser
        subst huser
        refine ⟨hmem, hemail, ⟨fun h => Except.noConfusion h, fun h => ?_⟩, ?_⟩
        · rw [hcmp] at h
          exact Bool.noConfusion h
        · intro _
          exact ⟨rfl, rfl, rfl⟩
      · intro e he
        exact Except.noConfusion he

/-! ## Theorems on the query `users` -/

/-- Claim C8: the query `users` fails with `NotAuthenticated` when the request has no session
user id; with a session whose user is `u`, it fails with `Forbidden` exactly when no permission
of `u` is among `ADMIN`, `PERMISSIONUPDATE`, and otherwise returns all stored users; on both
failures the world is as before, so the store was not queried. -/
theorem users_outcome (req : Request) (w : World) :
    (truthy req.userId = false → users req w = (.error .NotAuthenticated, w)) ∧
    (truthy req.userId = true → ∀ u, req.user = some u →
      ((users req w).1 = .error .Forbidden ↔
        ∀ p ∈ u.permissions, p ∉ ["ADMIN", "PERMISSIONUPDATE"]) ∧
      ((∀ p ∈ u.permissions, p ∉ ["ADMIN", "PERMISSIONUPDATE"]) →
        users req w = (.error .Forbidden, w)) ∧
      ((∃ p ∈ u.permissions, p ∈ ["ADMIN", "PERMISSIONUPDATE"]) →
        users req w = (.ok w.users, w.logOp .queryUsers))) := by
  constructor
  · intro h
    unfold users
    simp only [h, Bool.not_false, if_true]
  · intro h u hu
    by_cases hany : u.permissions.any (fun p => ["ADMIN", "PERMISSIONUPDATE"].contains p)
        = true
    · have hres : users req w = (.ok w.users, w.logOp .queryUsers) := by
        unfold users hasPermission
        simp only [h, Bool.not_true, Bool.false_eq_true, if_false, hu, hany, if_true]
      have hex : ∃ p ∈ u.permissions, p ∈ ["ADMIN", "PERMISSIONUPDATE"] := by
        rw [List.any_eq_true] at hany
        obtain ⟨p, hp, hc⟩ := hany
        exact ⟨p, hp, by simpa using hc⟩
      have hnot : ¬ ∀ p ∈ u.permissions, p ∉ ["ADMIN", "PERMISSIONUPDATE"] := by
        intro hall
        obtain ⟨p, hp, hc⟩ := hex
        exact hall p hp hc
      rw [hres]
      exact ⟨⟨fun h => Except.noConfusion h, fun h => absurd h hnot⟩,
        fun h => absurd h hnot, fun _ => rfl⟩
    · have hres : users req w = (.error .Forbidden, w) := by
        unfold users hasPermission
        simp only [h, Bool.not_true, Bool.false_eq_true, if_false, hu, hany]
      have hall : ∀ p ∈ u.permissions, p ∉ ["ADMIN", "PERMISSIONUPDATE"] := by
        intro p hp hc
        apply hany
        rw [List.any_eq_true]
        exact ⟨p, hp, by simpa using hc⟩
      rw [hres]
      refine ⟨⟨fun _ => hall, fun _ => rfl⟩, fun _ => rfl, ?_⟩
      rintro ⟨p, hp, hc⟩
      exact absurd hc (hall p hp)

/-! ## Theorems on `createItem` -/

/-- Claim C9, as the code has it: `createItem` fails with `NotAuthenticated` and leaves the
world as it was when the request has no session user id; with a session user id `u`, one
record is sent to the store, it carries every field of `args` other than `user` unchanged,
and its `user` field is the connect to `u` whenever `args` has no `user` field of its own. -/
theorem createItem_links_creator (req : Request) (args : Obj) (w : World) :
    (truthy req.userId = false → createItem req args w = (.error .NotAuthenticated, w)) ∧
    (∀ u, req.userId = some u → u ≠ "" →
      ∃ data, createItem req args w =
          (.ok data, { w.logOp .createItem with items := w.items ++ [data] }) ∧
        (args "user" = none → data "user" = some (.connect u)) ∧
        (∀ k, k ≠ "user" → data k = args k)) := by
  constructor
  · intro h
    unfold createItem
    cases hid : req.userId with
    | none => rfl
    | some id =>
      rw [hid] at h
      simp only [h, Bool.not_false, if_true]
  · intro u hu hne
    have ht : truthy (some u) = true := by
      simp [truthy, hne]
    refine ⟨(Obj.empty.set "user" (.connect u)).spread args, ?_, ?_, ?_⟩
    · unfold createItem
      simp only [hu, ht, Bool.not_true, Bool.false_eq_true, if_false]
      rfl
    · intro hnone
      simp [Obj.spread, Obj.set, hnone]
    · intro k hk
      cases hak : args k <;> simp [Obj.spread, Obj.set, Obj.empty, hak, hk]

/-- Counterexample to claim C9 as stated: with session user id `u1` and an `args` record that
carries its own `user` field, the record sent to the store is connected to the user named in
`args`, not to `u1`. -/
theorem createItem_args_user_counterexample :
    ∃ data,
      (createItem { userId := some "u1", user := some bob }
        (Obj.empty.set "user" (.connect "u0")) sampleWorld).1 = .ok data ∧
      data "user" = some (.connect "u0") ∧ data "user" ≠ some (.connect "u1") :=
  ⟨(Obj.empty.set "user" (.connect "u1")).spread (Obj.empty.set "user" (.connect "u0")),
    rfl, by decide, by decide⟩

/-! ## Theorems on `signup` -/

/-- What `signup` does on an `args` record whose `email` and `password` are strings. -/
theorem signup_of_args (env : Env) (args : Obj) (w : World) (e p : String)
    (he : args "email" = some (.str e)) (hp : args "password" = some (.str p)) :
    ∃ user : User, user.email = env.toLowerCase e ∧ user.password = env.hash p ∧
      user.permissions = ["USER"] ∧
      signup env args w =
        if (findUserByEmail w.users (env.toLowerCase e)).isSome then
          (.error .StoreError, w.logOp .createUser)
        else
          (.ok user,
            World.setCookie { w.logOp .createUser with users := w.users ++ [user] }
              (env.sign user.id)) := by
  have hp2 : (args.set "email" (.str (env.toLowerCase e))) "password" = some (.str p) := by
    simp [Obj.set, hp]
  unfold signup
  simp only [he, hp2]
  unfold dbCreateUser
  have h1 : (((Obj.empty.spread (args.set "email" (.str (env.toLowerCase e)))).set "password"
      (.str (env.hash p))).set "permissions" (.permSet ["USER"])) "email"
        = some (.str (env.toLowerCase e)) := by
    simp [Obj.set, Obj.spread]
  have h2 : (((Obj.empty.spread (args.set "email" (.str (env.toLowerCase e)))).set "password"
      (.str (env.hash p))).set "permissions" (.permSet ["USER"])) "password"
        = some (.str (env.hash p)) := by
    simp [Obj.set]
  have h3 : (((Obj.empty.spread (args.set "email" (.str (env.toLowerCase e)))).set "password"
      (.str (env.hash p))).set "permissions" (.permSet ["USER"])) "permissions"
        = some (.permSet ["USER"]) := by
    simp [Obj.set]
  simp only [h1, h2, h3]
  by_cases hfree : (findUserByEmail w.users (env.toLowerCase e)).isSome = true
  · refine ⟨{ id := "", name := none, email := env.toLowerCase e, password := env.hash p,
              permissions := ["USER"], resetToken := none, resetTokenExpiry := none },
      rfl, rfl, rfl, ?_⟩
    simp only [hfree, if_true]
  · simp only [hfree, if_false]
    exact ⟨_, rfl, rfl, rfl, rfl⟩

/-- Claim C6: whatever fields `args` carries, a user created by `signup` has as email
`args.email` lowercased by `String.prototype.toLowerCase`, exactly the permission `USER`, and
the hash of `args.password` as password, and is the one record added to the store; and
`signup` does create a user whenever `args.email` and `args.password` are strings and the
lowercased email is not yet stored. -/
theorem signup_creates (env : Env) (args : Obj) (w : World) :
    (∀ created w2, signup env args w = (.ok created, w2) →
      ∃ e p, args "email" = some (.str e) ∧ args "password" = some (.str p) ∧
        created.email = env.toLowerCase e ∧ created.permissions = ["USER"] ∧
        created.password = env.hash p ∧ w2.users = w.users ++ [created]) ∧
    (∀ e p, args "email" = some (.str e) → args "password" = some (.str p) →
      (∀ u ∈ w.users, u.email ≠ env.toLowerCase e) →
      ∃ created, (signup env args w).1 = .ok created ∧
        created.email = env.toLowerCase e ∧ created.permissions = ["USER"] ∧
        created.password = env.hash p ∧
        (signup env args w).2.users = w.users ++ [created]) := by
  constructor
  · intro created w2 hok
    cases he : args "email" with
    | none => simp [signup, he] at hok
    | some v =>
      cases v with
      | str e =>
        cases hp : (args.set "email" (.str (env.toLowerCase e))) "password" with
        | none => simp [signup, he, hp] at hok
        | some v2 =>
          cases v2 with
          | str p =>
            have hp2 : args "password" = some (.str p) := by
              simpa [Obj.set] using hp
            obtain ⟨user, h1, h2, h3, hres⟩ := signup_of_args env args w e p he hp2
            rw [hres] at hok
            split at hok
            · exact Except.noConfusion (Prod.mk.inj hok).1
            · obtain ⟨hu, hw⟩ := Prod.mk.inj hok
              have hu : user = created := by
                injection hu
              subst hu
              refine ⟨e, p, rfl, hp2, h1, h3, h2, ?_⟩
              rw [← hw]
              rfl
          | null => simp [signup, he, hp] at hok
          | num n => simp [signup, he, hp] at hok
          | permSet ps => simp [signup, he, hp] at hok
          | connect id => simp [signup, he, hp] at hok
      | null => simp [signup, he] at hok
      | num n => simp [signup, he] at hok
      | permSet ps => simp [signup, he] at hok
      | connect id => simp [signup, he] at hok
  · intro e p he hp hfree
    obtain ⟨user, h1, h2, h3, hres⟩ := signup_of_args env args w e p he hp
    have hnone : findUserByEmail w.users (env.toLowerCase e) = none :=
      findUserByEmail_eq_none.mpr hfree
    rw [hres, hnone]
    exact ⟨user, rfl, h1, h3, h2, rfl⟩

/-- Example of `signup_creates`: `signup` with email `A@B.com`, and an `args` record asking
for the permission `ADMIN`, stores `a@b.com`, the permission `USER` and the hash of the
password. -/
theorem signup_creates_example :
    ∃ created, (signup sampleEnv sampleSignupArgs sampleWorld).1 = .ok created ∧
      created.email = "a@b.com" ∧ created.permissions = ["USER"] ∧
      created.password = "$2a$10$pw" ∧
      (signup sampleEnv sampleSignupArgs sampleWorld).2.users
        = sampleWorld.users ++ [created] :=
  (signup_creates sampleEnv sampleSignupArgs sampleWorld).2 "A@B.com" "pw" rfl rfl
    (by decide)

/-! ## Email case: `signup` against `signin` and `requestReset` -/

theorem signin_of_find (env : Env) (email password : String) (w : World) (user : User)
    (hfind : findUserByEmail w.users email = some user)
    (hcmp : env.compare password user.password = true) :
    signin env email password w =
      (.ok user, (w.logOp (.queryUser email)).setCookie (env.sign user.id)) := by
  unfold signin
  simp only [hfind, hcmp, Bool.not_true, Bool.false_eq_true, if_false]

theorem signin_of_not_find (env : Env) (email password : String) (w : World)
    (hfind : findUserByEmail w.users email = none) :
    signin env email password w =
      (.error (.UserNotFound email), w.logOp (.queryUser email)) := by
  unfold signin
  simp only [hfind]

/-- Claim C10: `signin` and `requestReset` look the user up by the email as supplied, while
`signup` stores the email lowercased by `String.prototype.toLowerCase`.  After a successful
`signup` with email `e` and password `p`, on a store whose emails are all lowercase (as
`signup` leaves them) and with a hasher whose `compare` accepts the hash of a password,
`signin` with the lowercased `e` and `p` returns the created user; and when `e` contains an
uppercase letter, that is when lowercasing changes `e`, `signin` and `requestReset` with `e`
itself fail with `UserNotFound`. -/
theorem signin_after_signup (env : Env) (now : Int) (args : Obj) (w : World) (e p : String)
    (created : User)
    (hverify : ∀ q, env.compare q (env.hash q) = true)
    (hlower : ∀ u ∈ w.users, env.toLowerCase u.email = u.email)
    (he : args "email" = some (.str e)) (hp : args "password" = some (.str p))
    (hok : (signup env args w).1 = .ok created) :
    (signin env (env.toLowerCase e) p (signup env args w).2).1 = .ok created ∧
    (env.toLowerCase e ≠ e →
      (signin env e p (signup env args w).2).1 = .error (.UserNotFound e) ∧
      (requestReset env now e (signup env args w).2).1 = .error (.UserNotFound e)) := by
  obtain ⟨user, h1, h2, _, hres⟩ := signup_of_args env args w e p he hp
  cases hfind : findUserByEmail w.users (env.toLowerCase e) with
  | some found =>
    rw [hres, hfind] at hok
    exact Except.noConfusion hok
  | none =>
    rw [hfind] at hres
    have hres2 : signup env args w = (.ok user,
        World.setCookie { w.logOp .createUser with users := w.users ++ [user] }
          (env.sign user.id)) := hres
    rw [hres2] at hok
    have hu : user = created := by
      injection hok
    subst hu
    have husers : (signup env args w).2.users = w.users ++ [user] := by
      rw [hres2]; rfl
    refine ⟨?_, ?_⟩
    · have hf : findUserByEmail (signup env args w).2.users (env.toLowerCase e) = some user := by
        rw [husers]
        unfold findUserByEmail at hfind ⊢
        rw [List.find?_append, hfind]
        simp [h1]
      rw [signin_of_find env _ p _ user hf (by rw [h2]; exact hverify p)]
    · intro hne
      have hf : findUserByEmail (signup env args w).2.users e = none := by
        rw [husers, findUserByEmail_eq_none]
        intro u hu
        rcases List.mem_append.mp hu with hu | hu
        · intro hue
          apply hne
          rw [← hue]
          exact hlower u hu
        · rw [List.mem_singleton] at hu
          subst hu
          rw [h1]
          exact hne
      rw [signin_of_not_find env e p _ hf, requestReset_of_not_find env now e _ hf]
      exact ⟨rfl, rfl⟩

/-- Witness of `signin_after_signup`: signing up as `A@B.com` in the sample world, where
lowercasing changes the email. -/
theorem signin_after_signup_witness :
    sampleEnv.toLowerCase "A@B.com" ≠ "A@B.com" ∧
    (signin sampleEnv (sampleEnv.toLowerCase "A@B.com") "pw"
        (signup sampleEnv sampleSignupArgs sampleWorld).2).1 =
      .ok { id := "u2", name := some "Ann", email := "a@b.com", password := "$2a$10$pw",
            permissions := ["USER"], resetToken := none, resetTokenExpiry := none } ∧
    (sampleEnv.toLowerCase "A@B.com" ≠ "A@B.com" →
      (signin sampleEnv "A@B.com" "pw" (signup sampleEnv sampleSignupArgs sampleWorld).2).1
        = .error (.UserNotFound "A@B.com") ∧
      (requestReset sampleEnv 0 "A@B.com"
        (signup sampleEnv sampleSignupArgs sampleWorld).2).1
        = .error (.UserNotFound "A@B.com")) :=
  ⟨by decide,
    signin_after_signup sampleEnv 0 sampleSignupArgs sampleWorld "A@B.com" "pw" _
      (fun q => by simp [sampleEnv]) (by decide) rfl rfl (by decide)⟩

/-! ## Store invariants kept by the resolvers

The stores the theorems above assume (emails pairwise distinct, emails lowercase) are the
ones the resolvers produce: the empty store is such a store and every resolver that writes
users keeps both properties, lowercasing being idempotent. -/

theorem updateUserList_emails (users : List User) (e : String) (d : Obj) :
    (updateUserList users e d).map (fun u => u.email) = users.map (fun u => u.email) := by
  induction users with
  | nil => rfl
  | cons u us ih =>
    unfold updateUserList
    by_cases h : u.email = e
    · simp only [h, if_true, List.map_cons]
      rw [← h]
      rfl
    · simp only [h, if_false, List.map_cons, ih]

theorem dbUpdateUser_emails (w : World) (e : String) (d : Obj) :
    (dbUpdateUser w e d).2.users.map (fun u => u.email) = w.users.map (fun u => u.email) := by
  unfold dbUpdateUser
  cases h : findUserByEmail w.users e with
  | none => rfl
  | some u => exact updateUserList_emails w.users e d

/-- The resolver `requestReset` changes no stored email. -/
theorem requestReset_emails (env : Env) (now : Int) (email : String) (w : World) :
    (requestReset env now email w).2.users.map (fun u => u.email) =
      w.users.map (fun u => u.email) := by
  cases h : findUserByEmail w.users email with
  | none => rw [requestReset_of_not_find env now email w h]; rfl
  | some user =>
    rw [requestReset_of_find env now email w user h]
    split <;> exact updateUserList_emails w.users email _

/-- The resolver `resetPassword` changes no stored email. -/
theorem resetPassword_emails (env : Env) (now : Int) (args : ResetArgs) (w : World) :
    (resetPassword env now args w).2.users.map (fun u => u.email) =
      w.users.map (fun u => u.email) := by
  by_cases heq : args.password = args.confirmPassword
  · cases hf : w.users.filter (fun u => u.matchesReset args.resetToken (now - 3600000)) with
    | nil => rw [resetPassword_of_filter_nil env now args w heq hf]; rfl
    | cons m rest =>
      obtain ⟨v, _, hres⟩ := resetPassword_of_filter_cons env now args w heq m rest hf
      rw [hres]
      exact updateUserList_emails w.users m.email _
  · unfold resetPassword
    simp only [ne_eq, heq, not_false_eq_true, if_true]

/-- The users after `signup`: the same, or one more whose email is lowercase and new. -/
theorem signup_users (env : Env) (args : Obj) (w : World) :
    (signup env args w).2.users = w.users ∨
    ∃ e user, user.email = env.toLowerCase e ∧ (∀ u ∈ w.users, u.email ≠ env.toLowerCase e) ∧
      (signup env args w).2.users = w.users ++ [user] := by
  cases he : args "email" with
  | none => left; simp [signup, he]
  | some v =>
    cases v with
    | str e =>
      cases hp : (args.set "email" (.str (env.toLowerCase e))) "password" with
      | none => left; simp [signup, he, hp]
      | some v2 =>
        cases v2 with
        | str p =>
          have hp2 : args "password" = some (.str p) := by
            simpa [Obj.set] using hp
          obtain ⟨user, h1, _, _, hres⟩ := signup_of_args env args w e p he hp2
          cases hfind : findUserByEmail w.users (env.toLowerCase e) with
          | some found =>
            left
            rw [hres, hfind]
            rfl
          | none =>
            right
            refine ⟨e, user, h1, findUserByEmail_eq_none.mp hfind, ?_⟩
            rw [hres, hfind]
            rfl
        | null => left; simp [signup, he, hp]
        | num n => left; simp [signup, he, hp]
        | permSet ps => left; simp [signup, he, hp]
        | connect id => left; simp [signup, he, hp]
    | null => left; simp [signup, he]
    | num n => left; simp [signup, he]
    | permSet ps => left; simp [signup, he]
    | connect id => left; simp [signup, he]

/-- The resolver `signup` keeps the stored emails pairwise distinct. -/
theorem signup_keeps_unique (env : Env) (args : Obj) (w : World)
    (h : (w.users.map (fun u => u.email)).Nodup) :
    ((signup env args w).2.users.map (fun u => u.email)).Nodup := by
  rcases signup_users env args w with hsame | ⟨e, user, h1, hfree, hadd⟩
  · rw [hsame]; exact h
  · rw [hadd, List.map_append, List.map_singleton]
    refine List.Nodup.append h (List.nodup_singleton _) ?_
    rw [List.disjoint_singleton]
    intro hmem
    obtain ⟨u, hu, hue⟩ := List.mem_map.mp hmem
    exact hfree u hu (hue.trans h1)

/-- The resolver `signup` keeps the stored emails lowercase, lowercasing a lowercased string
being without effect. -/
theorem signup_keeps_lowercase (env : Env) (args : Obj) (w : World)
    (hidem : ∀ s, env.toLowerCase (env.toLowerCase s) = env.toLowerCase s)
    (h : ∀ u ∈ w.users, env.toLowerCase u.email = u.email) :
    ∀ u ∈ (signup env args w).2.users, env.toLowerCase u.email = u.email := by
  rcases signup_users env args w with hsame | ⟨e, user, h1, _, hadd⟩
  · rw [hsame]; exact h
  · rw [hadd]
    intro u hu
    rcases List.mem_append.mp hu with hu | hu
    · exact h u hu
    · rw [List.mem_singleton] at hu
      subst hu
      rw [h1, hidem]

end Fitaman
